import Mathlib

/-!
Shallow embedding of the `delay` package (Go): a registry of delayed
functions (`Func`), the invocation encoder (`Function.Task` in
`src/delay.go`), the dispatch path (`handleTask`) and the streaming ack
loop (`Listener.listenQueue`).

Go reflection is modelled by a small universe of Go types (`GoType`,
`GoKind`) and runtime values (`GoVal`): a `GoVal` is either the untyped
nil interface (`none`) or a typed value carrying its dynamic type, a
flag recording whether the underlying reference is nil (a "typed nil"),
and an opaque payload used for observational equality.  The gob codec is
modelled as a faithful injection of `invocation` records into payloads,
with a separate constructor for malformed wire bytes.  Pointers to
`Function` objects are modelled by indices into an explicit heap so that
the in-place mutations done by `Func` (marking an overwritten
registration as errored) are observable through aliases, exactly as in
the Go code.
-/

namespace Delay

/-- Go reflection kinds, restricted to the kinds the package inspects. -/
inductive GoKind where
  | kChan | kFunc | kInterface | kMap | kPtr | kSlice
  | kInt | kString | kBool | kStruct
deriving DecidableEq, Repr

/-- The kinds accepted for a nil argument in `Function.Task`
(`src/delay.go` lines 123-127) and normalised when the runtime value is
nil (lines 130-138): chan, func, interface, map, pointer, slice. -/
def GoKind.isNilable : GoKind → Bool
  | .kChan => true
  | .kFunc => true
  | .kInterface => true
  | .kMap => true
  | .kPtr => true
  | .kSlice => true
  | _ => false

/-- A universe of Go static types: `context.Context`, `error`, a few
base types, and the container formers the package's kind switches care
about.  `funcT` carries an opaque id so distinct function types exist;
`ifaceAny` is `interface\x7b\x7d`. -/
inductive GoType where
  | context
  | error
  | int
  | string
  | bool
  | structT (name : String)
  | ptr (e : GoType)
  | slice (e : GoType)
  | mapT (k v : GoType)
  | chan (e : GoType)
  | funcT (id : Nat)
  | ifaceAny
deriving DecidableEq, Repr

/-- `reflect.Type.Kind`. -/
def GoType.kind : GoType → GoKind
  | .context => .kInterface
  | .error => .kInterface
  | .int => .kInt
  | .string => .kString
  | .bool => .kBool
  | .structT _ => .kStruct
  | .ptr _ => .kPtr
  | .slice _ => .kSlice
  | .mapT _ _ => .kMap
  | .chan _ => .kChan
  | .funcT _ => .kFunc
  | .ifaceAny => .kInterface

/-- `reflect.Type.Elem` on the container types (used on the variadic
slice parameter). On a non-container type it is the type itself. -/
def GoType.elem : GoType → GoType
  | .ptr e => e
  | .slice e => e
  | .chan e => e
  | .mapT _ v => v
  | t => t

/-- `reflect.Type.AssignableTo`, on this universe: a type is assignable
to itself and every type is assignable to the empty interface. -/
def GoType.assignableTo (a d : GoType) : Bool :=
  decide (a = d ∨ d = GoType.ifaceAny)

/-- A typed Go runtime value: its dynamic type, whether the underlying
reference is nil (meaningful for nilable kinds: a "typed nil"), and an
opaque payload standing for the rest of the value. -/
structure TypedVal where
  ty : GoType
  isNil : Bool
  data : Nat
deriving DecidableEq, Repr

/-- A value stored in an `interface\x7b\x7d` slot: `none` is the untyped
nil interface (`reflect.TypeOf` returns nil on it). -/
abbrev GoVal := Option TypedVal

/-- Whether the value held in an argument slot is nil as a reference:
the untyped nil interface, or a typed value whose underlying reference
is nil.  This is how a rebuilt argument reads at its declared (nilable)
parameter type; it is NOT the nil test Go applies to an interface slot
itself (see `errvIsNil`). -/
def goIsNil : GoVal → Bool
  | none => true
  | some tv => tv.isNil

/-- `reflect.Value.IsNil` on an interface-kind slot, as applied to the
`error` result at `src/delay.go` line 370: true only for the nil
interface.  A typed-nil error boxed in a non-nil interface is non-nil
here, so the handler is reported as failed. -/
def errvIsNil : GoVal → Bool
  | none => true
  | some _ => false

/-- Whether gob can serialise values of this type at all: chan and func
values, anywhere in the value's structure this universe can see, cannot
be encoded.  The fields of a named struct are outside this universe's
granularity. -/
def GoType.gobOk : GoType → Bool
  | .chan _ => false
  | .funcT _ => false
  | .ptr e => e.gobOk
  | .slice e => e.gobOk
  | .mapT k v => k.gobOk && v.gobOk
  | _ => true

/-- Whether `gob.Encode` succeeds on one element of the heterogeneous
`[]interface\x7b\x7d` argument list, given the ambient set `reg` of
concrete types registered with gob: nil encodes trivially; a concrete
value needs a gob-encodable dynamic type that has been registered
(every element sits in an interface slot, so registration is required —
`Func` registers the declared non-interface parameter types at
registration time, and callers must register the concrete types they
pass for interface-typed parameters). -/
def gobCanEncode (reg : List GoType) : GoVal → Bool
  | none => true
  | some tv => tv.ty.gobOk && reg.any (fun t => decide (t = tv.ty))

/-- `reflect.Zero t` boxed into an interface slot: for nilable kinds the
zero value is a nil reference of that type. -/
def zeroVal (t : GoType) : GoVal :=
  some ⟨t, t.kind.isNilable, 0⟩

/-- Registration errors stored in `Function.err` by `Func`
(`src/delay.go` lines 49-57 and 73-75). -/
inductive RegError where
  | notFunction
  | firstArgNotContext
  | duplicate (key file : String)
deriving DecidableEq, Repr

/-- Errors returned by `Function.Task` (`src/delay.go` lines 89-158).
`invalidCall` stands for the reflection panic that would occur if `Task`
ran on a non-function value with no stored error; `Func` never produces
such a `Function`. -/
inductive TaskError where
  | stored (e : RegError)
  | invalidCall
  | tooFew (n m : Nat)
  | tooMany (n m : Nat)
  | notNilable (i : Nat) (dt : GoType)
  | notAssignable (i : Nat) (a dt : GoType)
  | gobError
deriving DecidableEq, Repr

/-- The signature and behaviour of a registered handler, as exposed by
`reflect`: parameter types (`In`), variadicity, result types (`Out`),
and the handler's behaviour `impl` mapping the full call vector (context
included) to the returned values (`reflect.Value.Call`). -/
structure FuncSig where
  params : List GoType
  variadic : Bool
  results : List GoType
  impl : List GoVal → List GoVal

/-- The `interface\x7b\x7d` value passed to `Func`: either a function
with a signature or some non-function value. -/
inductive RegValue where
  | fn (sig : FuncSig)
  | nonFunc (t : GoType)

/-- `Function` (`src/delay.go` lines 33-37): the reflected value, the
derived key, and the deferred registration error. -/
structure Function where
  fv : RegValue
  key : String
  err : Option RegError

/-- The process-wide state: a heap of `Function` objects (a `*Function`
is an index into it) and the `funcs` registry mapping derived keys to
heap indices.  Later `funcs` entries shadow earlier ones, modelling map
overwrite. -/
structure DelayState where
  heap : List Function
  funcs : List (String × Nat)

/-- The state at process start: no registrations. -/
def initState : DelayState := ⟨[], []⟩

/-- Lookup in the `funcs` map. -/
def funcsLookup (s : DelayState) (k : String) : Option Nat :=
  s.funcs.lookup k

/-- Dereference a `*Function`. -/
def heapGet (s : DelayState) (idx : Nat) : Option Function :=
  s.heap.get? idx

/-- Set `old.err = e` through the pointer `idx` (`src/delay.go` line 74). -/
def markErr (heap : List Function) (idx : Nat) (e : RegError) : List Function :=
  match heap.get? idx with
  | some f => heap.set idx { f with err := some e }
  | none => heap

/-- `Func` (`src/delay.go` lines 40-79).  `file` is the caller's file
from `runtime.Caller`; the derived key is `file ++ ":" ++ key`.  Shape
failures store an error and do not register; a valid registration marks
any existing entry under the same derived key as a duplicate and then
overwrites it.  The `gob.Register` side effects on the serialisation
registry are not modelled.  Returns the pointer to the new `Function`
and the new state. -/
def Func (s : DelayState) (key file : String) (i : RegValue) : Nat × DelayState :=
  let fkey := file ++ ":" ++ key
  match i with
  | .nonFunc t =>
      (s.heap.length, ⟨s.heap ++ [⟨.nonFunc t, fkey, some .notFunction⟩], s.funcs⟩)
  | .fn sig =>
      if sig.params.head? = some GoType.context then
        let heap' :=
          match funcsLookup s fkey with
          | some oldIdx => markErr s.heap oldIdx (.duplicate key file)
          | none => s.heap
        (s.heap.length, ⟨heap' ++ [⟨.fn sig, fkey, none⟩], (fkey, s.heap.length) :: s.funcs⟩)
      else
        (s.heap.length, ⟨s.heap ++ [⟨.fn sig, fkey, some .firstArgNotContext⟩], s.funcs⟩)

/-- `invocation` (`src/delay.go` lines 81-84). -/
structure Invocation where
  Key : String
  Args : List GoVal
deriving DecidableEq, Repr

/-- The gob-encoded payload of a `SendTask`/`Task`: either the faithful
encoding of an invocation or malformed bytes. -/
inductive Payload where
  | good (inv : Invocation)
  | malformed (msg : String)
deriving DecidableEq, Repr

/-- `gob.Decoder.Decode` on a payload. -/
def gobDecode : Payload → Except String Invocation
  | .good inv => .ok inv
  | .malformed msg => .error msg

/-- `minArgs` as computed in `Function.Task` (`src/delay.go` lines
96-99): the declared parameter count, minus one when variadic. -/
def minArgsOf (sig : FuncSig) : Nat :=
  sig.params.length - (if sig.variadic then 1 else 0)

/-- The declared type checked against argument `i` (1-based, the context
is argument 0) in `Function.Task` (`src/delay.go` lines 111-118):
`In i` in the fixed prefix, the variadic element type beyond it. -/
def declType (sig : FuncSig) (m i : Nat) : GoType :=
  if i < m then sig.params.getD i GoType.int
  else (sig.params.getD m GoType.int).elem

/-- The per-argument check-and-normalise loop of `Function.Task`
(`src/delay.go` lines 107-143), with `i` the 1-based index of the head
argument.  Returns the argument slice as mutated so far together with
the error, if any: a nil argument at a non-nilable position and a
non-assignable dynamic type abort the loop, and a typed nil (nilable
kind, nil reference) is overwritten with plain nil in the slice before
its assignability is checked. -/
def checkLoop (sig : FuncSig) (m : Nat) : Nat → List GoVal → List GoVal × Option TaskError
  | _, [] => ([], none)
  | i, a :: rest =>
    let dt := declType sig m i
    match a with
    | none =>
      if dt.kind.isNilable then
        let r := checkLoop sig m (i + 1) rest
        (none :: r.1, r.2)
      else
        (none :: rest, some (.notNilable i dt))
    | some tv =>
      let a' : GoVal := if tv.ty.kind.isNilable && tv.isNil then none else some tv
      if tv.ty.assignableTo dt then
        let r := checkLoop sig m (i + 1) rest
        (a' :: r.1, r.2)
      else
        (a' :: rest, some (.notAssignable i tv.ty dt))

/-- `Function.Task` (`src/delay.go` lines 89-158).  `reg` is the
ambient set of concrete types registered with gob at call time (a
global in Go, mutated by `Func` and by client `gob.Register` calls):
after the checks pass, `gob.Encode` on the invocation (lines 150-153)
fails unless every remaining argument is gob-encodable against it.
Besides the Go return values the model returns the final state of the
caller's argument slice, which the loop mutates in place. -/
def Function.Task (f : Function) (reg : List GoType) (args : List GoVal) :
    Except TaskError Payload × List GoVal :=
  match f.err with
  | some e => (.error (.stored e), args)
  | none =>
    match f.fv with
    | .nonFunc _ => (.error .invalidCall, args)
    | .fn sig =>
      let nArgs := args.length + 1
      let m := minArgsOf sig
      if nArgs < m then
        (.error (.tooFew nArgs m), args)
      else if ¬sig.variadic ∧ nArgs > m then
        (.error (.tooMany nArgs m), args)
      else
        match checkLoop sig m 1 args with
        | (args', some e) => (.error e, args')
        | (args', none) =>
          if args'.all (gobCanEncode reg) then
            (.ok (.good ⟨f.key, args'⟩), args')
          else
            (.error .gobError, args')

/-- The sent-task list of a queue after `QueueSpec.SendTasks`
(`src/conn.go`): the queue is modelled by the list of payloads it has
accepted. -/
def sendTasks (q : List Payload) (tasks : List Payload) : List Payload :=
  q ++ tasks

/-- `Function.Call` (`src/delay.go` lines 166-173): build the task, and
on success send it as a singleton batch. -/
def Function.Call (f : Function) (reg : List GoType) (q : List Payload)
    (args : List GoVal) : Except TaskError (List Payload) :=
  match (f.Task reg args).1 with
  | .error e => .error e
  | .ok t => .ok (sendTasks q [t])

/-- The statically declared type used by `handleTask` to build the zero
value for a nil decoded argument `n` (1-based; `src/delay.go` lines
356-362): `In n` when non-variadic or in the fixed prefix, the variadic
element type otherwise. -/
def handlerDeclType (sig : FuncSig) (n : Nat) : GoType :=
  if sig.variadic = false ∨ n < sig.params.length - 1 then sig.params.getD n GoType.int
  else (sig.params.getD (sig.params.length - 1) GoType.int).elem

/-- The argument-reconstruction loop of `handleTask` (`src/delay.go`
lines 349-366), with `n` the index of the call slot being built (the
context occupies slot 0): a decoded value is used as-is, a nil is
replaced by the zero value of the statically declared type. -/
def buildInAux (sig : FuncSig) : Nat → List GoVal → List GoVal
  | _, [] => []
  | n, a :: rest =>
    let v : GoVal :=
      match a with
      | some tv => some tv
      | none => zeroVal (handlerDeclType sig n)
    v :: buildInAux sig (n + 1) rest

/-- The full call vector passed to `reflect.Value.Call`: the execution
context in slot 0, then the reconstructed arguments. -/
def buildIn (sig : FuncSig) (ctx : GoVal) (args : List GoVal) : List GoVal :=
  ctx :: buildInAux sig 1 args

/-- Errors returned by `handleTask` (`src/delay.go` lines 332-376).
`invalidHandler` stands for the reflection panic on a registered
non-function, which the registry invariant rules out. -/
inductive DispatchError where
  | decodeFail (msg : String)
  | noFunc (key : String)
  | invalidHandler
  | handlerFailed
deriving DecidableEq, Repr

/-- `handleTask` (`src/delay.go` lines 332-376): decode the payload,
look the handler up by key, rebuild the call vector, call the handler,
and fail exactly when its declared results end in `error` and the last
returned value is a non-nil error.  The 30-second timeout wrapped around
`ctx` is not modelled; `ctx` is the context value passed to the call. -/
def handleTask (s : DelayState) (ctx : GoVal) (p : Payload) : Except DispatchError Unit :=
  match gobDecode p with
  | .error e => .error (.decodeFail e)
  | .ok inv =>
    match funcsLookup s inv.Key with
    | none => .error (.noFunc inv.Key)
    | some idx =>
      match heapGet s idx with
      | none => .error (.noFunc inv.Key)
      | some f =>
        match f.fv with
        | .nonFunc _ => .error .invalidHandler
        | .fn sig =>
          let out := sig.impl (buildIn sig ctx inv.Args)
          match sig.results.getLast? with
          | some GoType.error =>
            if errvIsNil (out.getD (sig.results.length - 1) none) then .ok ()
            else .error .handlerFailed
          | _ => .ok ()

/-- The call vector `handleTask` hands to `reflect.Value.Call`, exposed
for the round-trip statements: `none` when dispatch errors out before
reaching the call. -/
def handleTaskIn (s : DelayState) (ctx : GoVal) (p : Payload) : Option (List GoVal) :=
  match gobDecode p with
  | .error _ => none
  | .ok inv =>
    match funcsLookup s inv.Key with
    | none => none
    | some idx =>
      match heapGet s idx with
      | none => none
      | some f =>
        match f.fv with
        | .nonFunc _ => none
        | .fn sig => some (buildIn sig ctx inv.Args)

/-- An inbound `pb.Task` as seen by the streaming dispatch loop. -/
structure InTask where
  code : String
  payload : Payload
deriving DecidableEq, Repr

/-- A `pb.ListenRequest` sent by the consumer on the stream. -/
inductive ListenRequest where
  | initial (project queueName : String)
  | ack (code : String) (success : Bool)
deriving DecidableEq, Repr

/-- The per-task unit spawned by the streaming branch of `listenQueue`
(`src/delay.go` lines 283-320): run `handleTask`, then send exactly one
`Ack` carrying the task's code, with `Success := !failed`. -/
def processTask (s : DelayState) (ctx : GoVal) (t : InTask) : ListenRequest :=
  let failed :=
    match handleTask s ctx t.payload with
    | .error _ => true
    | .ok _ => false
  .ack t.code (!failed)

/-- The streaming receive loop of `listenQueue` (`src/delay.go` lines
276-322) over a finite trace of received tasks, abstracting goroutine
interleaving: each received task yields its one ack, and a handler
failure never stops later tasks from being processed. -/
def streamLoop (s : DelayState) (ctx : GoVal) (tasks : List InTask) : List ListenRequest :=
  tasks.map (processTask s ctx)

/-- A run of registrations from process start (`Func` is expected to be
called only during initialisation). -/
def runFuncs : DelayState → List (String × String × RegValue) → DelayState
  | s, [] => s
  | s, (key, file, i) :: rest => runFuncs (Func s key file i).2 rest

/-- Whether a registration input fails `Func`'s shape checks
(`src/delay.go` lines 49-57). -/
def regShapeBad : RegValue → Bool
  | .nonFunc _ => true
  | .fn sig => if sig.params.head? = some GoType.context then false else true

/-- The encode-time nil normalisation applied to one argument slot:
`args[i-1] = nil` exactly when the dynamic type has nilable kind and the
reference is nil (`src/delay.go` lines 130-138). -/
def normalizeVal : GoVal → GoVal
  | none => none
  | some tv => if tv.ty.kind.isNilable && tv.isNil then none else some tv

/-- Whether one argument passes `Task`'s per-position check: a nil needs
a nilable declared kind, a typed value needs assignability. -/
def argPasses (sig : FuncSig) (m i : Nat) : GoVal → Bool
  | none => (declType sig m i).kind.isNilable
  | some tv => tv.ty.assignableTo (declType sig m i)

/-- The assignability half of `argPasses`, trivially true on nil. -/
def typeChecksAt (sig : FuncSig) (m i : Nat) : GoVal → Bool
  | none => true
  | some tv => tv.ty.assignableTo (declType sig m i)

/-- The arity condition under which `Task` reaches the per-argument
loop, for `argc` supplied arguments. -/
def arityOk (sig : FuncSig) (argc : Nat) : Bool :=
  if sig.variadic then decide (minArgsOf sig ≤ argc + 1)
  else decide (argc + 1 = minArgsOf sig)

theorem assignableTo_nilable {a d : GoType} (h : a.assignableTo d = true)
    (ha : a.kind.isNilable = true) : d.kind.isNilable = true := by
  have h' := of_decide_eq_true h
  rcases h' with h' | h'
  · exact h' ▸ ha
  · subst h'; rfl

theorem checkLoop_nil (sig : FuncSig) (m i : Nat) :
    checkLoop sig m i [] = ([], none) := rfl

theorem checkLoop_cons_none (sig : FuncSig) (m i : Nat) (rest : List GoVal) :
    checkLoop sig m i (none :: rest) =
      (if (declType sig m i).kind.isNilable then
        ((none :: (checkLoop sig m (i + 1) rest).1), (checkLoop sig m (i + 1) rest).2)
       else (none :: rest, some (.notNilable i (declType sig m i)))) := rfl

theorem checkLoop_cons_some (sig : FuncSig) (m i : Nat) (tv : TypedVal)
    (rest : List GoVal) :
    checkLoop sig m i (some tv :: rest) =
      (if tv.ty.assignableTo (declType sig m i) then
        (((if tv.ty.kind.isNilable && tv.isNil then none else some tv) ::
            (checkLoop sig m (i + 1) rest).1),
          (checkLoop sig m (i + 1) rest).2)
       else ((if tv.ty.kind.isNilable && tv.isNil then none else some tv) :: rest,
          some (.notAssignable i tv.ty (declType sig m i)))) := rfl

theorem checkLoop_fst_length (sig : FuncSig) (m : Nat) :
    ∀ (i : Nat) (args : List GoVal),
      ((checkLoop sig m i args).1).length = args.length := by
  intro i args
  induction args generalizing i with
  | nil => rfl
  | cons a rest ih =>
    cases a with
    | none =>
      rw [checkLoop_cons_none]
      by_cases h : (declType sig m i).kind.isNilable
      · simp [h, ih]
      · simp [h]
    | some tv =>
      rw [checkLoop_cons_some]
      by_cases h : tv.ty.assignableTo (declType sig m i)
      · simp [h, ih]
      · simp [h]

theorem forall_cons_shift (P : Nat → GoVal → Prop) (a : GoVal) (rest : List GoVal)
    (i : Nat) (ha : P i a) :
    (∀ j, j < rest.length → P (i + 1 + j) (rest.getD j none)) ↔
      (∀ j, j < (a :: rest).length → P (i + j) ((a :: rest).getD j none)) := by
  constructor
  · intro hall j hj
    cases j with
    | zero => simpa using ha
    | succ j' =>
      have hj' : j' < rest.length := by simpa using hj
      have := hall j' hj'
      rw [List.getD_cons_succ, show i + (j' + 1) = i + 1 + j' by omega]
      exact this
  · intro hall j hj
    have := hall (j + 1) (by simpa using Nat.succ_lt_succ hj)
    rw [List.getD_cons_succ, show i + (j + 1) = i + 1 + j by omega] at this
    exact this

theorem checkLoop_snd_none_iff (sig : FuncSig) (m : Nat) :
    ∀ (i : Nat) (args : List GoVal),
      (checkLoop sig m i args).2 = none ↔
        ∀ j, j < args.length → argPasses sig m (i + j) (args.getD j none) = true := by
  intro i args
  induction args generalizing i with
  | nil => simp [checkLoop]
  | cons a rest ih =>
    cases a with
    | none =>
      by_cases h : (declType sig m i).kind.isNilable
      · have h2 : (checkLoop sig m i (none :: rest)).2 = (checkLoop sig m (i + 1) rest).2 := by
          rw [checkLoop_cons_none]; simp [h]
        rw [h2, ih (i + 1)]
        exact forall_cons_shift (fun n v => argPasses sig m n v = true) none rest i
          (by simpa [argPasses] using h)
      · have h2 : (checkLoop sig m i (none :: rest)).2 =
            some (.notNilable i (declType sig m i)) := by
          rw [checkLoop_cons_none]; simp [h]
        rw [h2]
        constructor
        · intro hfalse; cases hfalse
        · intro hall
          have := hall 0 (by simp)
          simp [argPasses] at this
          exact absurd this h
    | some tv =>
      by_cases h : tv.ty.assignableTo (declType sig m i)
      · have h2 : (checkLoop sig m i (some tv :: rest)).2 = (checkLoop sig m (i + 1) rest).2 := by
          rw [checkLoop_cons_some]; simp [h]
        rw [h2, ih (i + 1)]
        exact forall_cons_shift (fun n v => argPasses sig m n v = true) (some tv) rest i
          (by simpa [argPasses] using h)
      · have h2 : (checkLoop sig m i (some tv :: rest)).2 =
            some (.notAssignable i tv.ty (declType sig m i)) := by
          rw [checkLoop_cons_some]; simp [h]
        rw [h2]
        constructor
        · intro hfalse; cases hfalse
        · intro hall
          have := hall 0 (by simp)
          simp [argPasses] at this
          exact absurd this h

theorem checkLoop_fst_getD (sig : FuncSig) (m : Nat) :
    ∀ (i : Nat) (args : List GoVal) (j : Nat), j < args.length →
      (∀ k, k < j → argPasses sig m (i + k) (args.getD k none) = true) →
      ((checkLoop sig m i args).1).getD j none = normalizeVal (args.getD j none) := by
  intro i args
  induction args generalizing i with
  | nil => intro j hj _; simp at hj
  | cons a rest ih =>
    intro j hj hpre
    cases j with
    | zero =>
      cases a with
      | none =>
        rw [checkLoop_cons_none]
        by_cases h : (declType sig m i).kind.isNilable
        · simp [h, normalizeVal]
        · simp [h, normalizeVal]
      | some tv =>
        rw [checkLoop_cons_some]
        by_cases h : tv.ty.assignableTo (declType sig m i)
        · simp [h, normalizeVal]
        · simp [h, normalizeVal]
    | succ j' =>
      have h0 := hpre 0 (by omega)
      have hrest : ∀ k, k < j' → argPasses sig m (i + 1 + k) (rest.getD k none) = true := by
        intro k hk
        have := hpre (k + 1) (by omega)
        rw [List.getD_cons_succ, show i + (k + 1) = i + 1 + k by omega] at this
        exact this
      cases a with
      | none =>
        have h : (declType sig m i).kind.isNilable = true := by
          simpa [argPasses] using h0
        have := ih (i + 1) j' (by simpa using Nat.lt_of_succ_lt_succ hj) hrest
        rw [checkLoop_cons_none]
        simpa [h] using this
      | some tv =>
        have h : tv.ty.assignableTo (declType sig m i) = true := by
          simpa [argPasses] using h0
        have := ih (i + 1) j' (by simpa using Nat.lt_of_succ_lt_succ hj) hrest
        rw [checkLoop_cons_some]
        simpa [h] using this

theorem checkLoop_fst_of_none (sig : FuncSig) (m : Nat) :
    ∀ (i : Nat) (args : List GoVal), (checkLoop sig m i args).2 = none →
      (checkLoop sig m i args).1 = args.map normalizeVal := by
  intro i args
  induction args generalizing i with
  | nil => intro _; rfl
  | cons a rest ih =>
    intro hok
    cases a with
    | none =>
      rw [checkLoop_cons_none] at hok ⊢
      by_cases h : (declType sig m i).kind.isNilable
      · have hrec : (checkLoop sig m (i + 1) rest).2 = none := by
          simpa [h] using hok
        simp [h, normalizeVal, ih (i + 1) hrec]
      · simp [h] at hok
    | some tv =>
      rw [checkLoop_cons_some] at hok ⊢
      by_cases h : tv.ty.assignableTo (declType sig m i)
      · have hrec : (checkLoop sig m (i + 1) rest).2 = none := by
          simpa [h] using hok
        simp [h, normalizeVal, ih (i + 1) hrec]
      · simp [h] at hok

theorem buildInAux_cons (sig : FuncSig) (n : Nat) (a : GoVal) (rest : List GoVal) :
    buildInAux sig n (a :: rest) =
      (match a with
       | some tv => some tv
       | none => zeroVal (handlerDeclType sig n)) :: buildInAux sig (n + 1) rest := rfl

theorem buildInAux_length (sig : FuncSig) :
    ∀ (n : Nat) (args : List GoVal), (buildInAux sig n args).length = args.length := by
  intro n args
  induction args generalizing n with
  | nil => rfl
  | cons a rest ih => simp [buildInAux, ih]

theorem buildInAux_getD_some (sig : FuncSig) :
    ∀ (n : Nat) (args : List GoVal) (j : Nat) (tv : TypedVal),
      args.getD j none = some tv → (buildInAux sig n args).getD j none = some tv := by
  intro n args
  induction args generalizing n with
  | nil => intro j tv h; simp at h
  | cons a rest ih =>
    intro j tv h
    cases j with
    | zero => simp_all [buildInAux]
    | succ j' =>
      simp only [List.getD_cons_succ] at h
      simpa [buildInAux] using ih (n + 1) j' tv h

theorem buildInAux_getD_none (sig : FuncSig) :
    ∀ (n : Nat) (args : List GoVal) (j : Nat), j < args.length →
      args.getD j none = none →
      (buildInAux sig n args).getD j none = zeroVal (handlerDeclType sig (n + j)) := by
  intro n args
  induction args generalizing n with
  | nil => intro j hj _; simp at hj
  | cons a rest ih =>
    intro j hj h
    cases j with
    | zero => simp_all [buildInAux]
    | succ j' =>
      simp only [List.getD_cons_succ] at h
      have := ih (n + 1) j' (by simpa using Nat.lt_of_succ_lt_succ hj) h
      rw [buildInAux_cons, List.getD_cons_succ, show n + (j' + 1) = n + 1 + j' by omega]
      exact this

theorem handlerDeclType_eq_declType (sig : FuncSig) (i : Nat)
    (h : sig.variadic = true ∨ i < minArgsOf sig) :
    handlerDeclType sig i = declType sig (minArgsOf sig) i := by
  cases hv : sig.variadic with
  | true =>
    have hm : minArgsOf sig = sig.params.length - 1 := by
      simp [minArgsOf, hv]
    by_cases hi : i < sig.params.length - 1
    · simp [handlerDeclType, declType, hv, hi, hm]
    · simp [handlerDeclType, declType, hv, hi, hm]
  | false =>
    have hi : i < minArgsOf sig := by
      rcases h with h | h
      · exact absurd h (by simp [hv])
      · exact h
    have hm : minArgsOf sig = sig.params.length := by
      simp [minArgsOf, hv]
    simp [handlerDeclType, declType, hv, hi, hm ▸ hi]

theorem Task_of_arityOk (f : Function) (sig : FuncSig) (reg : List GoType)
    (args : List GoVal)
    (herr : f.err = none) (hfv : f.fv = .fn sig)
    (har : arityOk sig args.length = true) :
    f.Task reg args =
      (match checkLoop sig (minArgsOf sig) 1 args with
       | (args', some e) => (.error e, args')
       | (args', none) =>
         if args'.all (gobCanEncode reg) then
           (.ok (.good ⟨f.key, args'⟩), args')
         else
           (.error .gobError, args')) := by
  have h1 : ¬(args.length + 1 < minArgsOf sig) := by
    unfold arityOk at har
    cases hv : sig.variadic with
    | true => simp [hv] at har; omega
    | false => simp [hv] at har; omega
  have h2 : ¬(¬sig.variadic ∧ args.length + 1 > minArgsOf sig) := by
    unfold arityOk at har
    cases hv : sig.variadic with
    | true => simp [hv]
    | false => simp [hv] at har ⊢; omega
  simp only [Function.Task, herr, hfv]
  rw [if_neg h1, if_neg h2]

theorem Task_ok_arity (f : Function) (sig : FuncSig) (reg : List GoType)
    (args : List GoVal) (p : Payload) (args₂ : List GoVal)
    (herr : f.err = none) (hfv : f.fv = .fn sig)
    (h : f.Task reg args = (.ok p, args₂)) :
    arityOk sig args.length = true := by
  simp only [Function.Task, herr, hfv] at h
  by_cases h1 : args.length + 1 < minArgsOf sig
  · simp [h1] at h
  · by_cases h2 : ¬sig.variadic ∧ args.length + 1 > minArgsOf sig
    · simp [h1, h2] at h
    · unfold arityOk
      cases hv : sig.variadic with
      | true => simp; omega
      | false => simp [hv] at h2 ⊢; omega

theorem Task_ok_elim (f : Function) (sig : FuncSig) (reg : List GoType)
    (args : List GoVal) (p : Payload) (args₂ : List GoVal)
    (herr : f.err = none) (hfv : f.fv = .fn sig)
    (h : f.Task reg args = (.ok p, args₂)) :
    checkLoop sig (minArgsOf sig) 1 args = (args₂, none) ∧
      args₂.all (gobCanEncode reg) = true ∧
      p = .good ⟨f.key, args₂⟩ := by
  have har := Task_ok_arity f sig reg args p args₂ herr hfv h
  rw [Task_of_arityOk f sig reg args herr hfv har] at h
  rcases hc : checkLoop sig (minArgsOf sig) 1 args with ⟨args', e⟩
  rw [hc] at h
  cases e with
  | none =>
    simp only [] at h
    by_cases hall : args'.all (gobCanEncode reg) = true
    · rw [if_pos hall] at h
      injection h with h1 h2
      injection h1 with h1'
      subst h2
      exact ⟨rfl, hall, h1'.symm⟩
    · rw [if_neg hall] at h
      injection h with h1 h2
      cases h1
  | some e' =>
    simp only [] at h
    injection h with h1 h2
    cases h1

theorem getD_map_normalizeVal :
    ∀ (args : List GoVal) (j : Nat), j < args.length →
      (args.map normalizeVal).getD j none = normalizeVal (args.getD j none) := by
  intro args
  induction args with
  | nil => intro j hj; simp at hj
  | cons a rest ih =>
    intro j hj
    cases j with
    | zero => simp
    | succ j' => simpa using ih j' (by simpa using Nat.lt_of_succ_lt_succ hj)

/-! ## Concrete fixtures used by the witnesses -/

/-- A concrete execution-context value. -/
def exCtx : GoVal := some ⟨GoType.context, false, 99⟩

/-- A handler `func(ctx context.Context, n int) error`. -/
def exSigInt : FuncSig := ⟨[GoType.context, GoType.int], false, [GoType.error], fun _ => [none]⟩

def exKey : String := "handlers.go:process"

def exF : Function := ⟨.fn exSigInt, exKey, none⟩

/-- A registry state holding `exF` under `exKey`. -/
def exState : DelayState := ⟨[exF], [(exKey, 0)]⟩

/-- A handler `func(ctx context.Context, p *int, n int)`. -/
def exSigPtr : FuncSig := ⟨[GoType.context, GoType.ptr GoType.int, GoType.int], false, [], fun _ => []⟩

def exFPtr : Function := ⟨.fn exSigPtr, "handlers.go:ptr", none⟩

def exStatePtr : DelayState := ⟨[exFPtr], [("handlers.go:ptr", 0)]⟩

/-- A variadic handler `func(ctx context.Context, s string, rest ...int)`. -/
def exSigVar : FuncSig :=
  ⟨[GoType.context, GoType.string, GoType.slice GoType.int], true, [], fun _ => []⟩

/-! ## C2 — arity -/

/-- C2 counterexample: the claim says a non-variadic handler's `Task`
"succeeds exactly when the count matches", but for
`func(ctx, n int)` called with the single argument `"…" : string` the
count matches (`1 + 1 = minArgs = 2`) and `Task` still fails, with a
type error.  The claim also says every handler fails below the declared
parameter count minus one, but the variadic `func(ctx, ...int)` called
with zero arguments (fewer than `2 - 1 = 1`) succeeds. -/
theorem C2_counterexample :
    ([some (⟨GoType.string, false, 0⟩ : TypedVal)].length + 1 =
        minArgsOf ⟨[GoType.context, GoType.int], false, [], fun _ => []⟩) ∧
      ((⟨.fn ⟨[GoType.context, GoType.int], false, [], fun _ => []⟩,
          "file.go:k", none⟩ : Function).Task [GoType.int]
            [some ⟨GoType.string, false, 0⟩]).1 =
        .error (.notAssignable 1 GoType.string GoType.int) ∧
      ((⟨.fn ⟨[GoType.context, GoType.slice GoType.int], true, [], fun _ => []⟩,
          "file.go:v", none⟩ : Function).Task [GoType.slice GoType.int] []).1 =
        .ok (.good ⟨"file.go:v", []⟩) :=
  ⟨rfl, rfl, rfl⟩

/-- C2 (amended): with `minArgs` the declared parameter count less one
when variadic, `Task` fails with a too-few error when
`len(args) + 1 < minArgs`; a non-variadic handler fails with a too-many
error when `len(args) + 1 > minArgs`; and provided every argument passes
the per-position nil/type checks and the normalised argument list is
gob-encodable against the ambient registry (no chan/func values, every
concrete type registered), `Task` succeeds exactly when
`len(args) + 1 = minArgs` (non-variadic) or `len(args) + 1 ≥ minArgs`
(variadic). -/
theorem C2_arity (f : Function) (sig : FuncSig) (reg : List GoType)
    (args : List GoVal)
    (herr : f.err = none) (hfv : f.fv = .fn sig) :
    (args.length + 1 < minArgsOf sig →
      (f.Task reg args).1 = .error (.tooFew (args.length + 1) (minArgsOf sig))) ∧
    (sig.variadic = false → args.length + 1 > minArgsOf sig →
      (f.Task reg args).1 = .error (.tooMany (args.length + 1) (minArgsOf sig))) ∧
    ((checkLoop sig (minArgsOf sig) 1 args).2 = none →
      ((checkLoop sig (minArgsOf sig) 1 args).1).all (gobCanEncode reg) = true →
      ((∃ p, (f.Task reg args).1 = .ok p) ↔ arityOk sig args.length = true)) := by
  refine ⟨?_, ?_, ?_⟩
  · intro hlt
    simp only [Function.Task, herr, hfv]
    rw [if_pos hlt]
  · intro hv hgt
    have hn : ¬(args.length + 1 < minArgsOf sig) := by omega
    have hc : ¬sig.variadic ∧ args.length + 1 > minArgsOf sig := ⟨by simp [hv], hgt⟩
    simp only [Function.Task, herr, hfv]
    rw [if_neg hn, if_pos hc]
  · intro hcheck henc
    constructor
    · rintro ⟨p, hp⟩
      have h' : f.Task reg args = (.ok p, (f.Task reg args).2) := by
        rw [← hp]
      exact Task_ok_arity f sig reg args p (f.Task reg args).2 herr hfv h'
    · intro har
      rw [Task_of_arityOk f sig reg args herr hfv har]
      rcases hc2 : checkLoop sig (minArgsOf sig) 1 args with ⟨args', e⟩
      rw [hc2] at hcheck henc
      cases e with
      | none =>
        simp only []
        rw [if_pos henc]
        exact ⟨.good ⟨f.key, args'⟩, rfl⟩
      | some e' => cases hcheck

/-- C2 witness: the amended arity statement applied to
`func(ctx, n int) error` with zero arguments, yielding the too-few
error. -/
theorem C2_witness : (exF.Task [GoType.int] []).1 = .error (.tooFew 1 2) :=
  (C2_arity exF exSigInt [GoType.int] [] rfl rfl).1 (by decide)

/-! ## C4 — nilability -/

/-- C4: for a handler whose arity check passes, whose non-nil arguments
are all assignable, and whose normalised argument list is gob-encodable
against the ambient registry, `Task` succeeds exactly when every nil
argument sits at a position whose declared kind is nilable (chan, func,
interface, map, pointer, slice); a nil at any other declared kind makes
`Task` return a type error and produce no payload (a nil argument is
never itself an encode obstacle: it serialises trivially). -/
theorem C4_nilability (f : Function) (sig : FuncSig) (reg : List GoType)
    (args : List GoVal)
    (herr : f.err = none) (hfv : f.fv = .fn sig)
    (har : arityOk sig args.length = true)
    (htypes : ∀ j, j < args.length →
      typeChecksAt sig (minArgsOf sig) (j + 1) (args.getD j none) = true)
    (henc : ((checkLoop sig (minArgsOf sig) 1 args).1).all (gobCanEncode reg) = true) :
    (∃ p, (f.Task reg args).1 = .ok p) ↔
      (∀ j, j < args.length → args.getD j none = none →
        (declType sig (minArgsOf sig) (j + 1)).kind.isNilable = true) := by
  have hiff := checkLoop_snd_none_iff sig (minArgsOf sig) 1 args
  rw [Task_of_arityOk f sig reg args herr hfv har]
  rcases hc : checkLoop sig (minArgsOf sig) 1 args with ⟨args', e⟩
  rw [hc] at hiff henc
  constructor
  · rintro ⟨p, hp⟩ j hj hnone
    cases e with
    | some e' => simp at hp
    | none =>
      have hall := hiff.mp rfl
      have := hall j hj
      rw [hnone] at this
      simp only [argPasses] at this
      rw [show j + 1 = 1 + j by omega]
      exact this
  · intro hnil
    have he : (args', e).2 = none := by
      rw [hiff]
      intro j hj
      cases hga : args.getD j none with
      | none =>
        have := hnil j hj hga
        rw [show 1 + j = j + 1 by omega]
        simpa [argPasses] using this
      | some tv =>
        have := htypes j hj
        rw [hga] at this
        rw [show 1 + j = j + 1 by omega]
        simpa [argPasses, typeChecksAt] using this
    have he' : e = none := he
    subst he'
    simp only []
    rw [if_pos henc]
    exact ⟨.good ⟨f.key, args'⟩, rfl⟩

/-- C4 witness: for `func(ctx, p *int, n int)` with arguments
`[nil, nil]` and the registry holding the declared types, the success
criterion reduces to the nilability of the two declared kinds: pointer
(nilable) at position 1, int (not) at position 2, so `Task` fails. -/
theorem C4_witness :
    ((∃ p, (exFPtr.Task [GoType.ptr GoType.int, GoType.int] [none, none]).1 = .ok p) ↔
      (∀ j, j < ([none, none] : List GoVal).length →
        ([none, none] : List GoVal).getD j none = none →
        (declType exSigPtr (minArgsOf exSigPtr) (j + 1)).kind.isNilable = true)) ∧
      (exFPtr.Task [GoType.ptr GoType.int, GoType.int] [none, none]).1 =
        .error (.notNilable 2 GoType.int) :=
  ⟨C4_nilability exFPtr exSigPtr [GoType.ptr GoType.int, GoType.int] [none, none]
      rfl rfl (by decide) (by decide) (by decide), rfl⟩

/-! ## C10 — in-place mutation of the argument slice -/

/-- C10: when every argument before position `j` passes its check and
the argument at `j` is a non-nil interface holding a nil value of
nilable kind, the caller's slice as left by `Task` has slot `j`
overwritten with plain nil — whether or not `Task` subsequently returns
an error for a later argument. -/
theorem C10_mutation (f : Function) (sig : FuncSig) (reg : List GoType)
    (args : List GoVal) (j : Nat) (tv : TypedVal)
    (herr : f.err = none) (hfv : f.fv = .fn sig)
    (har : arityOk sig args.length = true)
    (hj : j < args.length)
    (hpre : ∀ k, k < j → argPasses sig (minArgsOf sig) (1 + k) (args.getD k none) = true)
    (hv : args.getD j none = some tv)
    (hnil : tv.ty.kind.isNilable = true) (hisnil : tv.isNil = true) :
    ((f.Task reg args).2).getD j none = none := by
  have hsnd : (f.Task reg args).2 = (checkLoop sig (minArgsOf sig) 1 args).1 := by
    rw [Task_of_arityOk f sig reg args herr hfv har]
    rcases checkLoop sig (minArgsOf sig) 1 args with ⟨args', e⟩
    cases e with
    | none =>
      simp only []
      by_cases hall : args'.all (gobCanEncode reg) = true
      · rw [if_pos hall]
      · rw [if_neg hall]
    | some e' => rfl
  rw [hsnd, checkLoop_fst_getD sig (minArgsOf sig) 1 args j hj hpre, hv]
  simp [normalizeVal, hnil, hisnil]

/-- C10 witness: `func(ctx, p *int, n int)` called with a typed-nil
`*int` and then a `string`: `Task` fails on the second argument, yet the
returned slice has slot 0 overwritten with nil. -/
theorem C10_witness :
    ((exFPtr.Task [GoType.ptr GoType.int, GoType.int]
        [some ⟨GoType.ptr GoType.int, true, 7⟩, some ⟨GoType.string, false, 0⟩]).1 =
        .error (.notAssignable 2 GoType.string GoType.int)) ∧
      ((exFPtr.Task [GoType.ptr GoType.int, GoType.int]
          [some ⟨GoType.ptr GoType.int, true, 7⟩,
            some ⟨GoType.string, false, 0⟩]).2).getD 0 none = none :=
  ⟨rfl,
    C10_mutation exFPtr exSigPtr [GoType.ptr GoType.int, GoType.int]
      [some ⟨GoType.ptr GoType.int, true, 7⟩, some ⟨GoType.string, false, 0⟩]
      0 ⟨GoType.ptr GoType.int, true, 7⟩ rfl rfl (by decide) (by decide)
      (fun k hk => absurd hk (by omega)) rfl rfl rfl⟩

/-! ## C1 — round trip -/

/-- C1: for a registered handler whose `Task` call succeeds, decoding
the produced payload and dispatching it reaches the handler call with
the execution context in slot 0 and one slot per original argument;
every argument not normalised to nil at encode time arrives unchanged,
and every normalised (or plain-nil) argument arrives as a nil value of
its declared type. -/
theorem C1_round_trip (s : DelayState) (ctx : GoVal) (f : Function) (idx : Nat)
    (sig : FuncSig) (reg : List GoType) (args : List GoVal)
    (p : Payload) (args₂ : List GoVal)
    (hl : funcsLookup s f.key = some idx) (hg : heapGet s idx = some f)
    (herr : f.err = none) (hfv : f.fv = .fn sig)
    (ht : f.Task reg args = (.ok p, args₂)) :
    ∃ ins, handleTaskIn s ctx p = some (ctx :: ins) ∧
      ins.length = args.length ∧
      (∀ j tv, j < args.length → normalizeVal (args.getD j none) = some tv →
        ins.getD j none = some tv) ∧
      (∀ j, j < args.length → normalizeVal (args.getD j none) = none →
        goIsNil (ins.getD j none) = true) := by
  obtain ⟨hc, hall, hp⟩ := Task_ok_elim f sig reg args p args₂ herr hfv ht
  subst hp
  have har := Task_ok_arity f sig reg args (.good ⟨f.key, args₂⟩) args₂ herr hfv ht
  have hlen : args₂.length = args.length := by
    have := checkLoop_fst_length sig (minArgsOf sig) 1 args
    rw [hc] at this
    exact this
  have hmap : args₂ = args.map normalizeVal := by
    have := checkLoop_fst_of_none sig (minArgsOf sig) 1 args (by rw [hc])
    rw [hc] at this
    exact this
  have hpass : ∀ j, j < args.length →
      argPasses sig (minArgsOf sig) (1 + j) (args.getD j none) = true := by
    have := (checkLoop_snd_none_iff sig (minArgsOf sig) 1 args).mp (by rw [hc])
    exact this
  refine ⟨buildInAux sig 1 args₂, ?_, ?_, ?_, ?_⟩
  · simp [handleTaskIn, gobDecode, hl, hg, hfv, buildIn]
  · rw [buildInAux_length, hlen]
  · intro j tv hj hnorm
    have hga : args₂.getD j none = some tv := by
      rw [hmap, getD_map_normalizeVal args j hj, hnorm]
    exact buildInAux_getD_some sig 1 args₂ j tv hga
  · intro j hj hnorm
    have hga : args₂.getD j none = none := by
      rw [hmap, getD_map_normalizeVal args j hj, hnorm]
    have hj2 : j < args₂.length := by rw [hlen]; exact hj
    rw [buildInAux_getD_none sig 1 args₂ j hj2 hga]
    have hdt : (declType sig (minArgsOf sig) (1 + j)).kind.isNilable = true := by
      have hp := hpass j hj
      cases hga2 : args.getD j none with
      | none =>
        rw [hga2] at hp
        simpa [argPasses] using hp
      | some tv =>
        rw [hga2] at hp
        simp only [argPasses] at hp
        have hnilty : tv.ty.kind.isNilable = true := by
          rw [hga2] at hnorm
          simp only [normalizeVal] at hnorm
          by_cases hb : tv.ty.kind.isNilable && tv.isNil
          · exact (Bool.and_eq_true _ _ ▸ hb).1
          · rw [if_neg hb] at hnorm; cases hnorm
        exact assignableTo_nilable hp hnilty
    have heq : handlerDeclType sig (1 + j) = declType sig (minArgsOf sig) (1 + j) := by
      apply handlerDeclType_eq_declType
      unfold arityOk at har
      cases hv : sig.variadic with
      | true => exact Or.inl rfl
      | false =>
        rw [hv] at har
        simp at har
        exact Or.inr (by omega)
    rw [heq]
    simp [zeroVal, goIsNil, hdt]

/-- C1 witness: the round trip applied to `func(ctx, p *int, n int)`
with a typed-nil pointer and the int `5`, the registry holding the two
declared types: dispatch reaches the call with the context in slot 0,
the normalised pointer as a nil `*int`, and `5` unchanged. -/
theorem C1_witness :
    ∃ ins,
      handleTaskIn exStatePtr exCtx
          (.good ⟨"handlers.go:ptr", [none, some ⟨GoType.int, false, 5⟩]⟩) =
        some (exCtx :: ins) ∧
      ins.length = ([some ⟨GoType.ptr GoType.int, true, 7⟩,
        some ⟨GoType.int, false, 5⟩] : List GoVal).length ∧
      (∀ j tv, j < ([some ⟨GoType.ptr GoType.int, true, 7⟩,
          some ⟨GoType.int, false, 5⟩] : List GoVal).length →
        normalizeVal (([some ⟨GoType.ptr GoType.int, true, 7⟩,
          some ⟨GoType.int, false, 5⟩] : List GoVal).getD j none) = some tv →
        ins.getD j none = some tv) ∧
      (∀ j, j < ([some ⟨GoType.ptr GoType.int, true, 7⟩,
          some ⟨GoType.int, false, 5⟩] : List GoVal).length →
        normalizeVal (([some ⟨GoType.ptr GoType.int, true, 7⟩,
          some ⟨GoType.int, false, 5⟩] : List GoVal).getD j none) = none →
        goIsNil (ins.getD j none) = true) :=
  C1_round_trip exStatePtr exCtx exFPtr 0 exSigPtr
    [GoType.ptr GoType.int, GoType.int]
    [some ⟨GoType.ptr GoType.int, true, 7⟩, some ⟨GoType.int, false, 5⟩]
    (.good ⟨"handlers.go:ptr", [none, some ⟨GoType.int, false, 5⟩]⟩)
    [none, some ⟨GoType.int, false, 5⟩]
    rfl rfl rfl rfl rfl

/-! ## C5 — typed-nil round trip and zero substitution -/

/-- C5: a successful `Task` writes plain nil into the payload at every
position whose argument was a nil reference of nilable kind boxed in a
non-nil interface; and on dispatch every nil decoded argument is
replaced by the zero value of the statically declared parameter type at
its position, the variadic element type for tail positions
(`handlerDeclType`). -/
theorem C5_typed_nil (s : DelayState) (ctx : GoVal) (f : Function) (idx : Nat)
    (sig : FuncSig) (reg : List GoType) (args : List GoVal)
    (inv : Invocation) (args₂ : List GoVal)
    (hl : funcsLookup s f.key = some idx) (hg : heapGet s idx = some f)
    (herr : f.err = none) (hfv : f.fv = .fn sig)
    (ht : f.Task reg args = (.ok (.good inv), args₂)) :
    (∀ j tv, j < args.length → args.getD j none = some tv →
      tv.ty.kind.isNilable = true → tv.isNil = true →
      inv.Args.getD j none = none) ∧
    (∃ ins, handleTaskIn s ctx (.good inv) = some (ctx :: ins) ∧
      ∀ j, j < args.length → inv.Args.getD j none = none →
        ins.getD j none = zeroVal (handlerDeclType sig (j + 1))) := by
  obtain ⟨hc, hall, hp⟩ := Task_ok_elim f sig reg args (.good inv) args₂ herr hfv ht
  injection hp with hinv
  subst hinv
  have hlen : args₂.length = args.length := by
    have := checkLoop_fst_length sig (minArgsOf sig) 1 args
    rw [hc] at this
    exact this
  have hmap : args₂ = args.map normalizeVal := by
    have := checkLoop_fst_of_none sig (minArgsOf sig) 1 args (by rw [hc])
    rw [hc] at this
    exact this
  constructor
  · intro j tv hj hga hnil hisnil
    show args₂.getD j none = none
    rw [hmap, getD_map_normalizeVal args j hj, hga]
    simp [normalizeVal, hnil, hisnil]
  · refine ⟨buildInAux sig 1 args₂, ?_, ?_⟩
    · simp [handleTaskIn, gobDecode, hl, hg, hfv, buildIn]
    · intro j hj hga
      have hj2 : j < args₂.length := by rw [hlen]; exact hj
      rw [show (j + 1) = 1 + j by omega]
      exact buildInAux_getD_none sig 1 args₂ j hj2 hga

/-- C5 witness: the same typed-nil example as C1: the payload holds nil
in slot 0, and dispatch rebuilds slot 0 as the zero value of `*int`, a
nil pointer. -/
theorem C5_witness :
    ((∀ j tv, j < ([some ⟨GoType.ptr GoType.int, true, 7⟩,
        some ⟨GoType.int, false, 5⟩] : List GoVal).length →
      ([some ⟨GoType.ptr GoType.int, true, 7⟩,
        some ⟨GoType.int, false, 5⟩] : List GoVal).getD j none = some tv →
      tv.ty.kind.isNilable = true → tv.isNil = true →
      ([none, some ⟨GoType.int, false, 5⟩] : List GoVal).getD j none = none) ∧
    (∃ ins, handleTaskIn exStatePtr exCtx
        (.good ⟨"handlers.go:ptr", [none, some ⟨GoType.int, false, 5⟩]⟩) =
          some (exCtx :: ins) ∧
      ∀ j, j < ([some ⟨GoType.ptr GoType.int, true, 7⟩,
          some ⟨GoType.int, false, 5⟩] : List GoVal).length →
        ([none, some ⟨GoType.int, false, 5⟩] : List GoVal).getD j none = none →
        ins.getD j none = zeroVal (handlerDeclType exSigPtr (j + 1)))) :=
  C5_typed_nil exStatePtr exCtx exFPtr 0 exSigPtr
    [GoType.ptr GoType.int, GoType.int]
    [some ⟨GoType.ptr GoType.int, true, 7⟩, some ⟨GoType.int, false, 5⟩]
    ⟨"handlers.go:ptr", [none, some ⟨GoType.int, false, 5⟩]⟩
    [none, some ⟨GoType.int, false, 5⟩]
    rfl rfl rfl rfl rfl

/-! ## C3 — streaming acknowledgment -/

theorem streamLoop_getD (s : DelayState) (ctx : GoVal) :
    ∀ (tasks : List InTask) (j : Nat), j < tasks.length →
      (streamLoop s ctx tasks).getD j (.ack "" false) =
        processTask s ctx (tasks.getD j ⟨"", .malformed ""⟩) := by
  intro tasks
  induction tasks with
  | nil => intro j hj; simp at hj
  | cons t rest ih =>
    intro j hj
    cases j with
    | zero => simp [streamLoop]
    | succ j' =>
      have := ih j' (by simpa using Nat.lt_of_succ_lt_succ hj)
      simpa [streamLoop] using this

/-- C3: over any finite trace of received tasks, the streaming loop
emits exactly one ack per task, in the task's slot, carrying that task's
code, with success true exactly when `handleTask` returned no error
(decode failures, unknown keys and handler errors all make it false);
since every slot is populated, an earlier handler failure never stops a
later task from being processed.  Goroutine interleaving is abstracted:
the per-task units are independent, so the trace is modelled
pointwise. -/
theorem C3_stream_ack (s : DelayState) (ctx : GoVal) (tasks : List InTask) :
    (streamLoop s ctx tasks).length = tasks.length ∧
    ∀ j, j < tasks.length →
      (streamLoop s ctx tasks).getD j (.ack "" false) =
        .ack (tasks.getD j ⟨"", .malformed ""⟩).code
          (match handleTask s ctx (tasks.getD j ⟨"", .malformed ""⟩).payload with
           | .ok _ => true
           | .error _ => false) := by
  constructor
  · simp [streamLoop]
  · intro j hj
    rw [streamLoop_getD s ctx tasks j hj]
    cases h : handleTask s ctx (tasks.getD j ⟨"", .malformed ""⟩).payload with
    | ok u => simp only [processTask, h, Bool.not_false, Bool.not_true]
    | error e => simp only [processTask, h, Bool.not_false, Bool.not_true]

/-- C3 witness: a three-task trace against the `exState` registry: a
good invocation acks true, a malformed payload acks false, an unknown
key acks false, and all three acks are present in order. -/
theorem C3_witness :
    (streamLoop exState exCtx
        [⟨"t1", .good ⟨exKey, [some ⟨GoType.int, false, 5⟩]⟩⟩,
         ⟨"t2", .malformed "bad"⟩,
         ⟨"t3", .good ⟨"unknown", []⟩⟩]).length = 3 ∧
    (streamLoop exState exCtx
        [⟨"t1", .good ⟨exKey, [some ⟨GoType.int, false, 5⟩]⟩⟩,
         ⟨"t2", .malformed "bad"⟩,
         ⟨"t3", .good ⟨"unknown", []⟩⟩]).getD 1 (.ack "" false) =
      .ack "t2" false := by
  have h := C3_stream_ack exState exCtx
    [⟨"t1", .good ⟨exKey, [some ⟨GoType.int, false, 5⟩]⟩⟩,
     ⟨"t2", .malformed "bad"⟩,
     ⟨"t3", .good ⟨"unknown", []⟩⟩]
  refine ⟨h.1, ?_⟩
  have h2 := h.2 1 (by decide)
  rw [h2]
  rfl

/-! ## C7 — handler result propagation -/

/-- C7: a dispatched invocation whose handler's declared results end in
`error` fails exactly when the last returned value is a non-nil error
interface (`errv.IsNil()` at line 370 tests the interface slot itself,
so a typed-nil error boxed in a non-nil interface also counts as a
failure); when the last declared result is not `error` (or there are no
results), dispatch succeeds and every returned value is discarded. -/
theorem C7_result (s : DelayState) (ctx : GoVal) (f : Function) (idx : Nat)
    (sig : FuncSig) (inv : Invocation)
    (hl : funcsLookup s inv.Key = some idx) (hg : heapGet s idx = some f)
    (hfv : f.fv = .fn sig) :
    (sig.results.getLast? = some GoType.error →
      (handleTask s ctx (.good inv) = .ok () ↔
        errvIsNil ((sig.impl (buildIn sig ctx inv.Args)).getD
          (sig.results.length - 1) none) = true)) ∧
    (sig.results.getLast? ≠ some GoType.error →
      handleTask s ctx (.good inv) = .ok ()) := by
  constructor
  · intro hlast
    simp only [handleTask, gobDecode, hl, hg, hfv, hlast]
    by_cases h : errvIsNil ((sig.impl (buildIn sig ctx inv.Args)).getD
        (sig.results.length - 1) none) = true
    · simp [h]
    · simp [h]
  · intro hlast
    simp only [handleTask, gobDecode, hl, hg, hfv]

/-- A handler `func(ctx context.Context) error` returning a typed-nil
error: a nil `*MyErr` boxed in the non-nil `error` interface. -/
def exSigErrTN : FuncSig :=
  ⟨[GoType.context], false, [GoType.error],
    fun _ => [some ⟨GoType.ptr (GoType.structT "MyErr"), true, 0⟩]⟩

def exStateErrTN : DelayState :=
  ⟨[⟨.fn exSigErrTN, "handlers.go:tn", none⟩], [("handlers.go:tn", 0)]⟩

/-- C7 witness: `func(ctx, n int) error` returning a nil error succeeds,
and a handler returning a typed-nil error (nil `*MyErr` boxed in
`error`) dispatches as a failure, because the error interface slot is
non-nil. -/
theorem C7_witness :
    ((handleTask exState exCtx (.good ⟨exKey, [some ⟨GoType.int, false, 5⟩]⟩) = .ok () ↔
      errvIsNil ((exSigInt.impl (buildIn exSigInt exCtx [some ⟨GoType.int, false, 5⟩])).getD
        (exSigInt.results.length - 1) none) = true) ∧
    handleTask exState exCtx (.good ⟨exKey, [some ⟨GoType.int, false, 5⟩]⟩) = .ok ()) ∧
    ((handleTask exStateErrTN exCtx (.good ⟨"handlers.go:tn", []⟩) = .ok () ↔
      errvIsNil ((exSigErrTN.impl (buildIn exSigErrTN exCtx [])).getD
        (exSigErrTN.results.length - 1) none) = true) ∧
    handleTask exStateErrTN exCtx (.good ⟨"handlers.go:tn", []⟩) = .error .handlerFailed) :=
  ⟨⟨(C7_result exState exCtx exF 0 exSigInt ⟨exKey, [some ⟨GoType.int, false, 5⟩]⟩
      rfl rfl rfl).1 rfl, rfl⟩,
   ⟨(C7_result exStateErrTN exCtx ⟨.fn exSigErrTN, "handlers.go:tn", none⟩ 0 exSigErrTN
      ⟨"handlers.go:tn", []⟩ rfl rfl rfl).1 rfl, rfl⟩⟩

/-! ## C8 — deferred registration errors -/

/-- C8: `Func` on a non-function value, or on a function whose first
parameter is not `context.Context`, returns a `Function` carrying the
corresponding stored error instead of failing at once; and any
`Function` carrying a stored error makes every later `Task` (hence
`Call`) return exactly that error and produce no payload. -/
theorem C8_deferred (s : DelayState) (key file : String) :
    (∀ t : GoType,
      heapGet (Func s key file (.nonFunc t)).2 (Func s key file (.nonFunc t)).1 =
        some ⟨.nonFunc t, file ++ ":" ++ key, some .notFunction⟩) ∧
    (∀ sig : FuncSig, sig.params.head? ≠ some GoType.context →
      heapGet (Func s key file (.fn sig)).2 (Func s key file (.fn sig)).1 =
        some ⟨.fn sig, file ++ ":" ++ key, some .firstArgNotContext⟩) ∧
    (∀ (g : Function) (e : RegError), g.err = some e →
      ∀ reg args, (g.Task reg args).1 = .error (.stored e) ∧
        ∀ q, g.Call reg q args = .error (.stored e)) := by
  refine ⟨?_, ?_, ?_⟩
  · intro t
    simp only [Func, heapGet]
    exact List.get?_concat_length _ _
  · intro sig h
    simp only [Func, heapGet]
    rw [if_neg h]
    exact List.get?_concat_length _ _
  · intro g e hge reg args
    constructor
    · simp [Function.Task, hge]
    · simp [Function.Call, Function.Task, hge]

/-- C8 witness: registering the non-function value `int` stores the
not-a-function error, and `Task`/`Call` on the result both surface it. -/
theorem C8_witness :
    heapGet (Func initState "k" "f.go" (.nonFunc .int)).2
        (Func initState "k" "f.go" (.nonFunc .int)).1 =
      some ⟨.nonFunc .int, "f.go:k", some .notFunction⟩ ∧
    ((⟨.nonFunc .int, "f.go:k", some .notFunction⟩ : Function).Task [] []).1 =
      .error (.stored .notFunction) ∧
    (⟨.nonFunc .int, "f.go:k", some .notFunction⟩ : Function).Call [] [] [] =
      .error (.stored .notFunction) := by
  have h := C8_deferred initState "k" "f.go"
  exact ⟨h.1 GoType.int, (h.2.2 _ .notFunction rfl [] []).1,
    (h.2.2 _ .notFunction rfl [] []).2 []⟩

/-! ## C6 — duplicate registration -/

/-- C6: two valid `Func` calls with the same short name from the same
file derive the same key; the second registration overwrites the
registry entry (the key now resolves to the second `Function`, whose
stored error is nil, so it stays usable) while the first `Function` is
marked with the duplicate error through its pointer, so every subsequent
`Task` call on it fails with that error. -/
theorem C6_duplicate (s0 : DelayState) (key file : String) (sig1 sig2 : FuncSig)
    (h1 : sig1.params.head? = some GoType.context)
    (h2 : sig2.params.head? = some GoType.context)
    (h0 : funcsLookup s0 (file ++ ":" ++ key) = none) :
    funcsLookup (Func (Func s0 key file (.fn sig1)).2 key file (.fn sig2)).2
        (file ++ ":" ++ key) =
      some (Func (Func s0 key file (.fn sig1)).2 key file (.fn sig2)).1 ∧
    heapGet (Func (Func s0 key file (.fn sig1)).2 key file (.fn sig2)).2
        (Func s0 key file (.fn sig1)).1 =
      some ⟨.fn sig1, file ++ ":" ++ key, some (.duplicate key file)⟩ ∧
    (heapGet (Func (Func s0 key file (.fn sig1)).2 key file (.fn sig2)).2
        (Func (Func s0 key file (.fn sig1)).2 key file (.fn sig2)).1).map Function.err =
      some none ∧
    ∀ (g : Function) (reg : List GoType) (args : List GoVal),
      heapGet (Func (Func s0 key file (.fn sig1)).2 key file (.fn sig2)).2
          (Func s0 key file (.fn sig1)).1 = some g →
      (g.Task reg args).1 = .error (.stored (.duplicate key file)) := by
  set k : String := file ++ ":" ++ key with hk
  set f1 : Function := ⟨.fn sig1, k, none⟩ with hf1
  set f1' : Function := ⟨.fn sig1, k, some (.duplicate key file)⟩ with hf1'
  set f2 : Function := ⟨.fn sig2, k, none⟩ with hf2
  have e1 : Func s0 key file (.fn sig1) =
      (s0.heap.length, ⟨s0.heap ++ [f1], (k, s0.heap.length) :: s0.funcs⟩) := by
    simp [Func, h1, h0, hk, hf1]
  have em : markErr (s0.heap ++ [f1]) s0.heap.length (.duplicate key file) =
      (s0.heap ++ [f1]).set s0.heap.length f1' := by
    unfold markErr
    rw [List.get?_concat_length]
  have e2 : Func (Func s0 key file (.fn sig1)).2 key file (.fn sig2) =
      ((s0.heap ++ [f1]).length,
        ⟨(s0.heap ++ [f1]).set s0.heap.length f1' ++ [f2],
          (k, (s0.heap ++ [f1]).length) :: ((k, s0.heap.length) :: s0.funcs)⟩) := by
    rw [show (Func s0 key file (.fn sig1)).2 =
        (⟨s0.heap ++ [f1], (k, s0.heap.length) :: s0.funcs⟩ : DelayState) by rw [e1]]
    simp only [Func, h2, if_pos]
    rw [show funcsLookup
        (⟨s0.heap ++ [f1], (k, s0.heap.length) :: s0.funcs⟩ : DelayState) k =
        some s0.heap.length by simp [funcsLookup, List.lookup]]
    simp only []
    rw [em]
  have hg1 : heapGet (Func (Func s0 key file (.fn sig1)).2 key file (.fn sig2)).2
      (Func s0 key file (.fn sig1)).1 = some f1' := by
    rw [e2, e1]
    show ((s0.heap ++ [f1]).set s0.heap.length f1' ++ [f2]).get? s0.heap.length = _
    rw [List.get?_append (by simp)]
    rw [List.get?_set_eq_of_lt _ (by simp)]
  refine ⟨?_, hg1, ?_, ?_⟩
  · rw [e2]
    simp [funcsLookup, List.lookup]
  · rw [e2]
    show (((s0.heap ++ [f1]).set s0.heap.length f1' ++ [f2]).get?
        (s0.heap ++ [f1]).length).map Function.err = _
    rw [show (s0.heap ++ [f1]).length =
        ((s0.heap ++ [f1]).set s0.heap.length f1').length by simp]
    rw [List.get?_concat_length]
    rfl
  · intro g reg args hg
    rw [hg1] at hg
    injection hg with hg'
    subst hg'
    simp [Function.Task]

/-- C6 witness: two registrations of `process` from the same file on the
empty initial state: the key resolves to the second, the first is marked
as the duplicate, and `Task` on the first fails with the duplicate
error. -/
theorem C6_witness :
    funcsLookup (Func (Func initState "process" "jobs.go" (.fn exSigInt)).2
        "process" "jobs.go" (.fn exSigVar)).2 "jobs.go:process" =
      some (Func (Func initState "process" "jobs.go" (.fn exSigInt)).2
        "process" "jobs.go" (.fn exSigVar)).1 ∧
    ∀ (g : Function),
      heapGet (Func (Func initState "process" "jobs.go" (.fn exSigInt)).2
          "process" "jobs.go" (.fn exSigVar)).2
        (Func initState "process" "jobs.go" (.fn exSigInt)).1 = some g →
      (g.Task [GoType.int] [some ⟨GoType.int, false, 5⟩]).1 =
        .error (.stored (.duplicate "process" "jobs.go")) := by
  have h := C6_duplicate initState "process" "jobs.go" exSigInt exSigVar rfl rfl rfl
  exact ⟨h.1, fun g hg => h.2.2.2 g [GoType.int] [some ⟨GoType.int, false, 5⟩] hg⟩

/-! ## C9 — registry well-formedness invariant -/

theorem lookup_cons_self (k : String) (v : Nat) (rest : List (String × Nat)) :
    ((k, v) :: rest).lookup k = some v := by
  simp [List.lookup]

theorem lookup_cons_ne (k q : String) (v : Nat) (rest : List (String × Nat))
    (h : q ≠ k) : ((k, v) :: rest).lookup q = rest.lookup q := by
  have hb : (q == k) = false := beq_false_of_ne h
  simp [List.lookup, hb]

theorem markErr_length (heap : List Function) (n : Nat) (e : RegError) :
    (markErr heap n e).length = heap.length := by
  unfold markErr
  cases heap.get? n <;> simp

theorem markErr_get?_fv (heap : List Function) (n : Nat) (e : RegError) (idx : Nat)
    (f : Function) (h : heap.get? idx = some f) :
    ∃ f', (markErr heap n e).get? idx = some f' ∧ f'.fv = f.fv := by
  unfold markErr
  cases hn : heap.get? n with
  | none => exact ⟨f, h, rfl⟩
  | some g =>
    by_cases hin : idx = n
    · subst hin
      rw [h] at hn
      injection hn with hgf
      subst hgf
      have hlt : idx < heap.length := (List.get?_eq_some.mp h).1
      exact ⟨{ f with err := some e }, List.get?_set_eq_of_lt _ hlt, rfl⟩
    · exact ⟨f, by rw [List.get?_set_ne _ _ (fun hh => hin hh.symm)]; exact h, rfl⟩

/-- The invariant maintained by `Func` on the process-wide state: every
registered entry dereferences to a `Function` whose value is a function
whose first parameter is `context.Context`. -/
def goodState (s : DelayState) : Prop :=
  ∀ k idx, funcsLookup s k = some idx →
    ∃ f sig, heapGet s idx = some f ∧ f.fv = .fn sig ∧
      sig.params.head? = some GoType.context

theorem goodState_init : goodState initState := by
  intro k idx h
  simp [funcsLookup, initState, List.lookup] at h

theorem goodState_Func (s : DelayState) (key file : String) (i : RegValue)
    (hs : goodState s) : goodState (Func s key file i).2 := by
  cases i with
  | nonFunc t =>
    intro k idx h
    obtain ⟨f, sig, hget, hfv, hhead⟩ := hs k idx h
    refine ⟨f, sig, ?_, hfv, hhead⟩
    have hlt : idx < s.heap.length := (List.get?_eq_some.mp hget).1
    show (s.heap ++ [(⟨.nonFunc t, file ++ ":" ++ key, some .notFunction⟩ : Function)]).get? idx
      = some f
    rw [List.get?_append hlt]
    exact hget
  | fn sig =>
    by_cases hcx : sig.params.head? = some GoType.context
    · rcases hold : funcsLookup s (file ++ ":" ++ key) with _ | oldIdx
      · have e : (Func s key file (.fn sig)).2 =
            ⟨s.heap ++ [⟨.fn sig, file ++ ":" ++ key, none⟩],
              (file ++ ":" ++ key, s.heap.length) :: s.funcs⟩ := by
          simp [Func, hcx, hold]
        rw [e]
        intro k idx h
        by_cases hkk : k = file ++ ":" ++ key
        · rw [hkk] at h
          have hidx : idx = s.heap.length := by
            rw [show funcsLookup
                (⟨s.heap ++ [⟨.fn sig, file ++ ":" ++ key, none⟩],
                  (file ++ ":" ++ key, s.heap.length) :: s.funcs⟩ : DelayState)
                  (file ++ ":" ++ key)
                = some s.heap.length from
                  lookup_cons_self (file ++ ":" ++ key) s.heap.length s.funcs] at h
            injection h with h'
            exact h'.symm
          subst hidx
          refine ⟨⟨.fn sig, file ++ ":" ++ key, none⟩, sig, ?_, rfl, hcx⟩
          exact List.get?_concat_length _ _
        · have h' : funcsLookup s k = some idx := by
            rw [show funcsLookup
                (⟨s.heap ++ [⟨.fn sig, file ++ ":" ++ key, none⟩],
                  (file ++ ":" ++ key, s.heap.length) :: s.funcs⟩ : DelayState) k
                = s.funcs.lookup k from lookup_cons_ne _ k _ _ hkk] at h
            exact h
          obtain ⟨f, sig0, hget, hfv0, hh0⟩ := hs k idx h'
          have hlt : idx < s.heap.length := (List.get?_eq_some.mp hget).1
          refine ⟨f, sig0, ?_, hfv0, hh0⟩
          show (s.heap ++ [(⟨.fn sig, file ++ ":" ++ key, none⟩ : Function)]).get? idx = some f
          rw [List.get?_append hlt]
          exact hget
      · have e : (Func s key file (.fn sig)).2 =
            ⟨markErr s.heap oldIdx (.duplicate key file) ++ [⟨.fn sig, file ++ ":" ++ key, none⟩],
              (file ++ ":" ++ key, s.heap.length) :: s.funcs⟩ := by
          simp [Func, hcx, hold]
        rw [e]
        intro k idx h
        by_cases hkk : k = file ++ ":" ++ key
        · rw [hkk] at h
          have hidx : idx = s.heap.length := by
            rw [show funcsLookup
                (⟨markErr s.heap oldIdx (.duplicate key file) ++
                    [⟨.fn sig, file ++ ":" ++ key, none⟩],
                  (file ++ ":" ++ key, s.heap.length) :: s.funcs⟩ : DelayState)
                  (file ++ ":" ++ key)
                = some s.heap.length from
                  lookup_cons_self (file ++ ":" ++ key) s.heap.length s.funcs] at h
            injection h with h'
            exact h'.symm
          subst hidx
          refine ⟨⟨.fn sig, file ++ ":" ++ key, none⟩, sig, ?_, rfl, hcx⟩
          show (markErr s.heap oldIdx (.duplicate key file) ++
            [(⟨.fn sig, file ++ ":" ++ key, none⟩ : Function)]).get?
            s.heap.length = _
          rw [show s.heap.length = (markErr s.heap oldIdx (.duplicate key file)).length from
            (markErr_length s.heap oldIdx (.duplicate key file)).symm]
          exact List.get?_concat_length _ _
        · have h' : funcsLookup s k = some idx := by
            rw [show funcsLookup
                (⟨markErr s.heap oldIdx (.duplicate key file) ++
                    [⟨.fn sig, file ++ ":" ++ key, none⟩],
                  (file ++ ":" ++ key, s.heap.length) :: s.funcs⟩ : DelayState) k
                = s.funcs.lookup k from lookup_cons_ne _ k _ _ hkk] at h
            exact h
          obtain ⟨f, sig0, hget, hfv0, hh0⟩ := hs k idx h'
          obtain ⟨f', hget', hfv'⟩ :=
            markErr_get?_fv s.heap oldIdx (.duplicate key file) idx f hget
          have hlt : idx < (markErr s.heap oldIdx (.duplicate key file)).length :=
            (List.get?_eq_some.mp hget').1
          refine ⟨f', sig0, ?_, by rw [hfv', hfv0], hh0⟩
          show (markErr s.heap oldIdx (.duplicate key file) ++
            [(⟨.fn sig, file ++ ":" ++ key, none⟩ : Function)]).get? idx = some f'
          rw [List.get?_append hlt]
          exact hget'
    · have e : (Func s key file (.fn sig)).2 =
          ⟨s.heap ++ [⟨.fn sig, file ++ ":" ++ key, some .firstArgNotContext⟩], s.funcs⟩ := by
        simp only [Func]
        rw [if_neg hcx]
      rw [e]
      intro k idx h
      obtain ⟨f, sig0, hget, hfv0, hh0⟩ := hs k idx h
      have hlt : idx < s.heap.length := (List.get?_eq_some.mp hget).1
      refine ⟨f, sig0, ?_, hfv0, hh0⟩
      show (s.heap ++
        [(⟨.fn sig, file ++ ":" ++ key, some .firstArgNotContext⟩ : Function)]).get? idx = some f
      rw [List.get?_append hlt]
      exact hget

theorem goodState_runFuncs :
    ∀ (ops : List (String × String × RegValue)) (s : DelayState),
      goodState s → goodState (runFuncs s ops) := by
  intro ops
  induction ops with
  | nil => intro s hs; exact hs
  | cons op rest ih =>
    intro s hs
    rcases op with ⟨key, file, i⟩
    exact ih _ (goodState_Func s key file i hs)

theorem handleTask_noFunc (s : DelayState) (ctx : GoVal) (k : String) (as : List GoVal)
    (h : funcsLookup s k = none) :
    handleTask s ctx (.good ⟨k, as⟩) = .error (.noFunc k) := by
  simp [handleTask, gobDecode, h]

theorem Func_bad_funcs (s : DelayState) (key file : String) (i : RegValue)
    (h : regShapeBad i = true) : ((Func s key file i).2).funcs = s.funcs := by
  cases i with
  | nonFunc t => rfl
  | fn sig =>
    simp only [regShapeBad] at h
    by_cases hcx : sig.params.head? = some GoType.context
    · rw [if_pos hcx] at h
      cases h
    · simp only [Func]
      rw [if_neg hcx]

/-- C9: starting from the empty process state, after any sequence of
registrations every entry reachable through the `funcs` registry is a
function whose first parameter is `context.Context`; a registration
failing either shape check never touches the registry; and dispatching
an invocation whose key is absent from the registry returns the
no-func-with-key lookup error instead of invoking anything. -/
theorem C9_invariant (ops : List (String × String × RegValue)) :
    goodState (runFuncs initState ops) ∧
    (∀ (s : DelayState) (key file : String) (i : RegValue), regShapeBad i = true →
      ((Func s key file i).2).funcs = s.funcs) ∧
    (∀ (k : String) (ctx : GoVal) (as : List GoVal),
      funcsLookup (runFuncs initState ops) k = none →
      handleTask (runFuncs initState ops) ctx (.good ⟨k, as⟩) = .error (.noFunc k)) :=
  ⟨goodState_runFuncs ops initState goodState_init,
    Func_bad_funcs,
    fun k ctx as h => handleTask_noFunc (runFuncs initState ops) ctx k as h⟩

/-- C9 witness: after a failed registration of a non-function under
`bad` in `w.go`, dispatching the derived key yields the lookup error. -/
theorem C9_witness :
    handleTask (runFuncs initState [("bad", "w.go", .nonFunc GoType.int)]) exCtx
        (.good ⟨"w.go:bad", []⟩) = .error (.noFunc "w.go:bad") :=
  (C9_invariant [("bad", "w.go", .nonFunc GoType.int)]).2.2 "w.go:bad" exCtx [] rfl

end Delay
